import Mathlib

/-!
Verification of two slices of the Cirq repository excerpt:

* `cirq/sim/act_on_args.py` — the `ActOnArgs` simulation context
  (`measure`, and the decomposition fallback strategy
  `strat_act_on_from_apply_decompose`);
* the deprecation-annotation utilities of `cirq/_compat.py`, whose
  implementation is absent from the excerpt (only `_compat_test.py` is
  present), modelled here from the specification.

Python state mutation is embedded as explicit state passing; exceptions are
embedded as `Except` / explicit outcome values.
-/

set_option autoImplicit false

namespace ActOnArgsModel

/-! ### The measurement side of `ActOnArgs`

`ActOnArgs.measure` (act_on_args.py, lines 47-60):

```python
bits = self._perform_measurement()
corrected = [bit ^ (bit < 2 and mask) for bit, mask in zip(bits, invert_mask)]
if key in self.log_of_measurement_results:
    raise ValueError(f"Measurement already logged to key ...")
self.log_of_measurement_results[key] = corrected
```

`_perform_measurement` is abstract (implemented by subclasses against a
concrete tensor representation); it is embedded as an explicit parameter
`perform : σ → σ × List Int` acting on the subclass-owned part `σ` of the
state.  The measurement log, a Python dict, is embedded as an
insertion-ordered association list with unique keys.
-/

/-- The mutable state visible to `measure`: the subclass-owned state that
`_perform_measurement` may mutate, and the log of measurement results
(a Python dict embedded as an insertion-ordered association list). -/
structure MeasureState (σ : Type) where
  inner : σ
  log : List (String × List Int)

/-- Membership test of the Python dict: `key in self.log_of_measurement_results`. -/
def logContains (log : List (String × List Int)) (key : String) : Bool :=
  log.any (fun p => p.1 == key)

/-- Python `n ^ 1` on an int: flip the least-significant bit. -/
def xorOne (n : Int) : Int :=
  if n % 2 == 0 then n + 1 else n - 1

/-- The Python expression `bit ^ (bit < 2 and mask)`: when `bit < 2` is false
the conjunction short-circuits to `False` (numerically `0`), leaving `bit`
unchanged; otherwise the conjunction yields `mask`, and xoring with a bool
xors with `0` or `1`. -/
def correctBit (bit : Int) (mask : Bool) : Int :=
  if bit < 2 && mask then xorOne bit else bit

/-- The errors `measure` can raise. -/
inductive MeasureError where
  | duplicateKey (key : String)
  deriving DecidableEq, Repr

/-- `ActOnArgs.measure` (act_on_args.py lines 47-60) as explicit state
passing: perform the abstract measurement, apply the invert mask bit-wise
(`zip` truncates to the shorter list), then fail if the key is already
logged, else append the corrected result under the key. -/
def measure {σ : Type} (perform : σ → σ × List Int) (key : String)
    (invert_mask : List Bool) (st : MeasureState σ) :
    MeasureState σ × Except MeasureError Unit :=
  let bits := (perform st.inner).2
  let inner1 := (perform st.inner).1
  let corrected := (bits.zip invert_mask).map (fun p => correctBit p.1 p.2)
  if logContains st.log key then
    ({ st with inner := inner1 }, .error (.duplicateKey key))
  else
    ({ inner := inner1, log := st.log ++ [(key, corrected)] }, .ok ())

/-! ### The decomposition fallback `strat_act_on_from_apply_decompose`

```python
operations, qubits, _ = _try_decompose_into_operations_and_qubits(val)
if operations is None:
    return NotImplemented
assert len(qubits) == len(args.axes)
qubit_map = {q: args.axes[i] for i, q in enumerate(qubits)}
old_axes = args.axes
try:
    for operation in operations:
        args.axes = tuple(qubit_map[q] for q in operation.qubits)
        protocols.act_on(operation, args)
finally:
    args.axes = old_axes
return True
```

`_try_decompose_into_operations_and_qubits` and `protocols.act_on` live
outside the excerpt; they are embedded as parameters `decompose` and
`actOn`.  The context's mutable state is its `axes` tuple together with an
abstract component `σ` standing for the rest of `ActOnArgs` that `act_on`
may mutate (the prng, the log, the subclass tensor).  Python exceptions are
explicit outcome values; the `finally` clause becomes an unconditional
restore of `axes` on the way out of the loop.
-/

/-- The mutable context passed to the strategy: the `axes` tuple of
`ActOnArgs` plus the abstract remainder `σ` of its state. -/
structure Args (σ : Type) where
  axes : List Nat
  extra : σ

/-- An operation as the strategy sees it: something with a `qubits` tuple. -/
structure Operation (Q : Type) where
  qubits : List Q

/-- How a run of `strat_act_on_from_apply_decompose` ends: the
`NotImplemented` sentinel, the `assert` failing, a `KeyError` while
remapping a sub-operation's qubits, an exception raised by `act_on`,
or the `True` success flag. -/
inductive StratOutcome (E : Type) where
  | notImplemented
  | assertionError
  | keyError
  | raised (e : E)
  | success
  deriving DecidableEq, Repr

/-- One assignment of the Python dict comprehension: insert with overwrite
of an existing binding for the same key. -/
def dictInsert {Q : Type} [DecidableEq Q] (m : List (Q × Nat)) (k : Q) (v : Nat) :
    List (Q × Nat) :=
  if m.any (fun p => p.1 = k) then
    m.map (fun p => if p.1 = k then (k, v) else p)
  else
    m ++ [(k, v)]

/-- `qubit_map = {q: args.axes[i] for i, q in enumerate(qubits)}` — the
`assert` has already guaranteed `len(qubits) == len(args.axes)`, so the
enumeration is exactly a zip. -/
def buildQubitMap {Q : Type} [DecidableEq Q] (qubits : List Q) (axes : List Nat) :
    List (Q × Nat) :=
  (qubits.zip axes).foldl (fun m p => dictInsert m p.1 p.2) []

/-- Dict lookup `qubit_map[q]`, `none` being Python's `KeyError`. -/
def dictLookup {Q : Type} [DecidableEq Q] (m : List (Q × Nat)) (q : Q) : Option Nat :=
  (m.find? (fun p => p.1 = q)).map (fun p => p.2)

/-- The `for operation in operations` loop body: set `args.axes` to the
remapped qubits of the operation (a missing key aborting with `KeyError`),
call `act_on`, and continue while no exception is raised.  `actOn` returns
the mutated context and, possibly, a raised exception. -/
def applyOps {Q σ E : Type} [DecidableEq Q]
    (actOn : Operation Q → Args σ → Args σ × Option E)
    (qubit_map : List (Q × Nat)) :
    List (Operation Q) → Args σ → Args σ × StratOutcome E
  | [], args => (args, .success)
  | op :: rest, args =>
    match op.qubits.mapM (dictLookup qubit_map) with
    | none => (args, .keyError)
    | some newAxes =>
      let r := actOn op { args with axes := newAxes }
      match r.2 with
      | some e => (r.1, .raised e)
      | none => applyOps actOn qubit_map rest r.1

/-- `strat_act_on_from_apply_decompose` (act_on_args.py lines 68-85).
`decompose val = none` is `operations is None`; the `try/finally` is the
unconditional restore of `old_axes` around the loop's outcome. -/
def strat_act_on_from_apply_decompose {V Q σ E : Type} [DecidableEq Q]
    (decompose : V → Option (List (Operation Q) × List Q))
    (actOn : Operation Q → Args σ → Args σ × Option E)
    (val : V) (args : Args σ) : Args σ × StratOutcome E :=
  match decompose val with
  | none => (args, .notImplemented)
  | some (operations, qubits) =>
    if qubits.length = args.axes.length then
      let qubit_map := buildQubitMap qubits args.axes
      let old_axes := args.axes
      let r := applyOps actOn qubit_map operations args
      ({ r.1 with axes := old_axes }, r.2)
    else
      (args, .assertionError)

/-- Instrumentation of an arbitrary `act_on`: run it on the `σ` part of the
state and additionally count, in a fresh `Nat` component, how many times it
was invoked.  Used to express "every sub-operation was applied". -/
def countLift {Q σ E : Type}
    (actOn : Operation Q → Args σ → Args σ × Option E) :
    Operation Q → Args (σ × Nat) → Args (σ × Nat) × Option E :=
  fun op a =>
    let r := actOn op { axes := a.axes, extra := a.extra.1 }
    ({ axes := r.1.axes, extra := (r.1.extra, a.extra.2 + 1) }, r.2)

/-- A pure logging `act_on`: record the operation together with the axes the
context holds at the moment of the call, and never raise.  Used to observe
the order of application and the axes each sub-operation is applied with. -/
def logOn {Q : Type} :
    Operation Q → Args (List (Operation Q × List Nat)) →
      Args (List (Operation Q × List Nat)) × Option Empty :=
  fun op a => ({ a with extra := a.extra ++ [(op, a.axes)] }, none)

end ActOnArgsModel

namespace CompatModel

/-! ### Deprecation annotation utilities

The implementation module `cirq/_compat.py` is not part of the excerpt;
only its test file `cirq/_compat_test.py` is.  The definitions below are
therefore modelled from the specification (sections 4.1, 7 and 8 of the
spec), guided by the behaviour the tests assert: a removal milestone
("deadline") must match the pattern `vMAJOR.MINOR` and is validated when
the decorator is applied; each use of deprecated surface area emits one
diagnostic carrying the deprecated name, the milestone and the remediation
text, and returns the wrapped object's result; a global self-use policy
turns every such use into a hard `ValueError` instead.
-/

/-- Modelled from the spec: the milestone pattern `vMAJOR.MINOR` — the
letter `v`, one or more digits, a dot, one or more digits
(`_compat.py` is absent; the tests expect `AssertionError` matching
"deadline should match vX.Y" for anything else). -/
def validDeadline (s : String) : Bool :=
  match s.data with
  | 'v' :: rest =>
    let major := rest.takeWhile Char.isDigit
    match rest.dropWhile Char.isDigit with
    | '.' :: minor => !major.isEmpty && !minor.isEmpty && minor.all Char.isDigit
    | _ => false
  | _ => false

/-- Failure raised while applying a deprecation decorator. -/
inductive DecorationError where
  | badDeadline (deadline : String)
  deriving DecidableEq, Repr

/-- A function wrapped by the `deprecated` decorator: the metadata the
diagnostic needs plus the underlying function. -/
structure DeprecatedFn (α β : Type) where
  name : String
  deadline : String
  fix : String
  fn : α → β

/-- Modelled from the spec: applying the `deprecated` decorator validates
the milestone at decoration time — a malformed milestone fails immediately,
producing no wrapped function at all. -/
def deprecated {α β : Type} (deadline fix name : String) (fn : α → β) :
    Except DecorationError (DeprecatedFn α β) :=
  if validDeadline deadline then
    .ok { name := name, deadline := deadline, fix := fix, fn := fn }
  else
    .error (.badDeadline deadline)

/-- Modelled from the spec: `deprecated_parameter` carries the same
decoration-time milestone validation as `deprecated`. -/
def deprecated_parameter {α β : Type} (deadline fix parameter_desc : String)
    (fn : α → β) : Except DecorationError (DeprecatedFn α β) :=
  deprecated deadline fix parameter_desc fn

/-- Modelled from the spec: `deprecated_class` carries the same
decoration-time milestone validation as `deprecated`; the class is embedded
as its constructor function. -/
def deprecated_class {α β : Type} (deadline fix name : String)
    (constructor : α → β) : Except DecorationError (DeprecatedFn α β) :=
  deprecated deadline fix name constructor

/-- Modelled from the spec: `deprecate_attributes` validates the milestone
of every deprecated attribute at decoration time; the module is embedded as
its attribute-lookup function. -/
def deprecate_attributes {α β : Type} (deadline fix attr : String)
    (lookup : α → β) : Except DecorationError (DeprecatedFn α β) :=
  deprecated deadline fix attr lookup

/-- Modelled from the spec: the text of the deprecation diagnostic, naming
the deprecated item, the removal milestone, and the remediation. -/
def deprecationMessage (name deadline fix : String) : String :=
  name ++ " was used but is deprecated.\nIt will be removed in cirq " ++
    deadline ++ ".\n" ++ fix

/-- Result of calling through a deprecation wrapper: the underlying value
together with the diagnostics the call emitted. -/
structure CallResult (β : Type) where
  value : β
  diagnostics : List String

/-- Modelled from the spec: calling a wrapped deprecated function emits
exactly one diagnostic for the call and returns the underlying function's
result unchanged. -/
def callDeprecated {α β : Type} (f : DeprecatedFn α β) (x : α) : CallResult β :=
  { value := f.fn x
    diagnostics := [deprecationMessage f.name f.deadline f.fix] }

/-- Does the needle occur as a contiguous run inside the haystack?  Used to
state that a diagnostic's text contains the name, milestone and remediation. -/
def hasSublist : List Char → List Char → Bool
  | [], needle => needle.isEmpty
  | h :: t, needle => needle.isPrefixOf (h :: t) || hasSublist t needle

/-- The four kinds of deprecated use the self-use policy covers. -/
inductive DeprecationUse where
  | functionCall
  | parameterUse
  | attributeAccess
  | classInstantiation
  deriving DecidableEq, Repr

/-- Modelled from the spec: under the internal self-use policy the
diagnostic is upgraded to a hard `ValueError`; otherwise the call proceeds
and emits its single diagnostic. -/
def callDeprecatedWithPolicy {α β : Type} (selfUsePolicy : Bool)
    (u : DeprecationUse) (f : DeprecatedFn α β) (x : α) :
    Except String (CallResult β) :=
  if selfUsePolicy then
    .error "Cirq should not use deprecated functionality"
  else
    match u with
    | _ => .ok (callDeprecated f x)

end CompatModel

namespace ActOnArgsModel

/-! ### Properties of `measure` -/

/-- On bits that are genuinely bits (`0` or `1`), the mask correction of the
source is exactly the bit-flip the mask describes. -/
theorem zipMap_correctBit_eq_zipWith (bits : List Int) (mask : List Bool)
    (hb : ∀ b ∈ bits, b = 0 ∨ b = 1) :
    (bits.zip mask).map (fun p => correctBit p.1 p.2) =
      List.zipWith (fun b m => if m then 1 - b else b) bits mask := by
  induction bits generalizing mask with
  | nil => simp
  | cons b bs ih =>
    cases mask with
    | nil => simp
    | cons m ms =>
      have hb0 : b = 0 ∨ b = 1 := hb b (by simp)
      have hrest : ∀ x ∈ bs, x = 0 ∨ x = 1 := fun x hx => hb x (by simp [hx])
      simp only [List.zip_cons_cons, List.map_cons, List.zipWith_cons_cons,
        ih ms hrest, List.cons.injEq, and_true]
      rcases hb0 with h | h <;> subst h <;> cases m <;> decide

/-- The corrected list, read with defaults, is the source's per-position
correction. -/
theorem corrected_getD (bits : List Int) (mask : List Bool) (i : Nat)
    (h : i < min bits.length mask.length) :
    ((bits.zip mask).map (fun p => correctBit p.1 p.2)).getD i 0 =
      correctBit (bits.getD i 0) (mask.getD i false) := by
  induction bits generalizing mask i with
  | nil => simp at h
  | cons b bs ih =>
    cases mask with
    | nil => simp at h
    | cons m ms =>
      cases i with
      | zero => simp
      | succ n =>
        simp only [List.zip_cons_cons, List.map_cons, List.getD_cons_succ]
        exact ih ms n (by simp at h ⊢; omega)

/-- Claim C1: when the invert mask and the measured bits have the same
length `N` and the bits are bits (each `0` or `1`), `measure` records under
the key a list of length `N` whose `i`-th entry is `bits[i]` xor `mask[i]`:
masked positions are flipped, unmasked positions are unchanged (the fresh
key makes the recording happen at all). -/
theorem measure_applies_invert_mask {σ : Type} (perform : σ → σ × List Int)
    (key : String) (invert_mask : List Bool) (st : MeasureState σ)
    (hfresh : logContains st.log key = false)
    (hlen : (perform st.inner).2.length = invert_mask.length)
    (hbits : ∀ b ∈ (perform st.inner).2, b = 0 ∨ b = 1) :
    (measure perform key invert_mask st).2 = Except.ok () ∧
    (measure perform key invert_mask st).1.log =
      st.log ++ [(key, List.zipWith (fun b m => if m then 1 - b else b)
        (perform st.inner).2 invert_mask)] ∧
    (List.zipWith (fun b m => if m then 1 - b else b)
        (perform st.inner).2 invert_mask).length = invert_mask.length := by
  refine ⟨by simp [measure, hfresh], ?_, ?_⟩
  · simp [measure, hfresh, zipMap_correctBit_eq_zipWith _ _ hbits]
  · simp [hlen]

/-- Witness for C1 at a concrete input: two bits `[0, 1]`, mask
`[true, false]`: the recorded list is the bitwise xor. -/
theorem measure_applies_invert_mask_witness :
    logContains ([] : List (String × List Int)) "m" = false ∧
    ((fun (u : Unit) => (u, [(0 : Int), 1])) ()).2.length =
      ([true, false] : List Bool).length ∧
    (∀ b ∈ ((fun (u : Unit) => (u, [(0 : Int), 1])) ()).2, b = 0 ∨ b = 1) ∧
    ((measure (fun (u : Unit) => (u, [(0 : Int), 1])) "m" [true, false]
        ⟨(), []⟩).2 = Except.ok () ∧
      (measure (fun (u : Unit) => (u, [(0 : Int), 1])) "m" [true, false]
        ⟨(), []⟩).1.log =
        [] ++ [("m", List.zipWith (fun b m => if m then 1 - b else b)
          [(0 : Int), 1] [true, false])] ∧
      (List.zipWith (fun b m => if m then 1 - b else b)
        [(0 : Int), 1] [true, false]).length = ([true, false] : List Bool).length) :=
  ⟨rfl, rfl, by decide,
    measure_applies_invert_mask (fun (u : Unit) => (u, [(0 : Int), 1])) "m"
      [true, false] ⟨(), []⟩ rfl rfl (by decide)⟩

/-- Claim C2: measuring into a key already present in the log raises
(returns the duplicate-key error) and leaves the log — and hence the entry
already stored under the key — exactly as it was, adding nothing. -/
theorem measure_duplicate_key_fails {σ : Type} (perform : σ → σ × List Int)
    (key : String) (invert_mask : List Bool) (st : MeasureState σ)
    (hdup : logContains st.log key = true) :
    (measure perform key invert_mask st).2 =
      Except.error (MeasureError.duplicateKey key) ∧
    (measure perform key invert_mask st).1.log = st.log := by
  constructor <;> simp [measure, hdup]

/-- Witness for C2 at a concrete input: key `"m"` already logged. -/
theorem measure_duplicate_key_fails_witness :
    logContains [("m", [7])] "m" = true ∧
    ((measure (fun (u : Unit) => (u, [(1 : Int)])) "m" []
        ⟨(), [("m", [7])]⟩).2 = Except.error (MeasureError.duplicateKey "m") ∧
      (measure (fun (u : Unit) => (u, [(1 : Int)])) "m" []
        ⟨(), [("m", [7])]⟩).1.log = [("m", [7])]) :=
  ⟨rfl, measure_duplicate_key_fails (fun (u : Unit) => (u, [(1 : Int)])) "m" []
    ⟨(), [("m", [7])]⟩ rfl⟩

/-- Claim C9: `measure` calls `_perform_measurement` before the
duplicate-key check, so on a duplicate key the subclass state still takes
the effect of the measurement even though the call fails and the log is
unchanged. -/
theorem measure_invokes_perform_before_key_check {σ : Type}
    (perform : σ → σ × List Int) (key : String) (invert_mask : List Bool)
    (st : MeasureState σ) (hdup : logContains st.log key = true) :
    (measure perform key invert_mask st).1.inner = (perform st.inner).1 ∧
    (measure perform key invert_mask st).2 =
      Except.error (MeasureError.duplicateKey key) ∧
    (measure perform key invert_mask st).1.log = st.log := by
  refine ⟨?_, ?_, ?_⟩ <;> simp [measure, hdup]

/-- Witness for C9 at a concrete input: the measurement side effect (a
counter increment) happens although the duplicate key makes the call fail. -/
theorem measure_invokes_perform_before_key_check_witness :
    logContains [("m", [7])] "m" = true ∧
    ((measure (fun (n : Nat) => (n + 1, [(0 : Int)])) "m" [true]
        ⟨0, [("m", [7])]⟩).1.inner =
      ((fun (n : Nat) => (n + 1, [(0 : Int)])) 0).1 ∧
      (measure (fun (n : Nat) => (n + 1, [(0 : Int)])) "m" [true]
        ⟨0, [("m", [7])]⟩).2 = Except.error (MeasureError.duplicateKey "m") ∧
      (measure (fun (n : Nat) => (n + 1, [(0 : Int)])) "m" [true]
        ⟨0, [("m", [7])]⟩).1.log = [("m", [7])]) :=
  ⟨rfl, measure_invokes_perform_before_key_check
    (fun (n : Nat) => (n + 1, [(0 : Int)])) "m" [true] ⟨0, [("m", [7])]⟩ rfl⟩

/-- Claim C10: with a fresh key, mismatched lengths raise no error — the
recorded list is silently truncated to the shorter of the two lengths by
`zip` — and a measured value that is at least `2` is recorded unchanged,
whatever its mask entry. -/
theorem measure_truncates_mismatched_lengths {σ : Type}
    (perform : σ → σ × List Int) (key : String) (invert_mask : List Bool)
    (st : MeasureState σ) (hfresh : logContains st.log key = false) :
    (measure perform key invert_mask st).2 = Except.ok () ∧
    ∃ recorded : List Int,
      (measure perform key invert_mask st).1.log = st.log ++ [(key, recorded)] ∧
      recorded.length = min (perform st.inner).2.length invert_mask.length ∧
      ∀ i, i < recorded.length → 2 ≤ (perform st.inner).2.getD i 0 →
        recorded.getD i 0 = (perform st.inner).2.getD i 0 := by
  refine ⟨by simp [measure, hfresh],
    ((perform st.inner).2.zip invert_mask).map (fun p => correctBit p.1 p.2),
    by simp [measure, hfresh], by simp, ?_⟩
  intro i hi hbig
  simp only [List.length_map, List.length_zip] at hi
  rw [corrected_getD _ _ _ hi]
  have hlt : decide ((perform st.inner).2.getD i 0 < 2) = false := by
    simp only [decide_eq_false_iff_not, not_lt]; exact hbig
  simp only [correctBit, hlt, Bool.false_and, Bool.false_eq_true, if_false]

/-- Witness for C10 at a concrete input: three bits against a mask of
length two — no error, truncation to two entries, and the value `5` is not
flipped despite its set mask entry. -/
theorem measure_truncates_mismatched_lengths_witness :
    logContains ([] : List (String × List Int)) "m" = false ∧
    ((measure (fun (u : Unit) => (u, [(0 : Int), 5, 1])) "m" [true, true]
        ⟨(), []⟩).2 = Except.ok () ∧
      ∃ recorded : List Int,
        (measure (fun (u : Unit) => (u, [(0 : Int), 5, 1])) "m" [true, true]
          ⟨(), []⟩).1.log = [] ++ [("m", recorded)] ∧
        recorded.length =
          min ((fun (u : Unit) => (u, [(0 : Int), 5, 1])) ()).2.length
            ([true, true] : List Bool).length ∧
        ∀ i, i < recorded.length →
          2 ≤ ((fun (u : Unit) => (u, [(0 : Int), 5, 1])) ()).2.getD i 0 →
          recorded.getD i 0 =
            ((fun (u : Unit) => (u, [(0 : Int), 5, 1])) ()).2.getD i 0) :=
  ⟨rfl, measure_truncates_mismatched_lengths
    (fun (u : Unit) => (u, [(0 : Int), 5, 1])) "m" [true, true] ⟨(), []⟩ rfl⟩

/-! ### Properties of `strat_act_on_from_apply_decompose` -/

/-- When every lookup succeeds, `mapM` over the dict is the plain map of the
looked-up values. -/
theorem mapM_dictLookup_eq_map {Q : Type} [DecidableEq Q] (m : List (Q × Nat))
    (l : List Q) (h : ∀ q ∈ l, (dictLookup m q).isSome = true) :
    l.mapM (dictLookup m) = some (l.map (fun q => (dictLookup m q).getD 0)) := by
  induction l with
  | nil => rfl
  | cons q qs ih =>
    rw [List.mapM_cons]
    obtain ⟨v, hv⟩ := Option.isSome_iff_exists.mp (h q (by simp))
    rw [hv, ih (fun x hx => h x (by simp [hx]))]
    simp [hv]

/-- Running the loop with the logging `act_on`: it succeeds and appends, in
order, one record per operation carrying the remapped axes the context held
when that operation was applied. -/
theorem applyOps_logOn {Q : Type} [DecidableEq Q] (m : List (Q × Nat))
    (ops : List (Operation Q)) (a : Args (List (Operation Q × List Nat)))
    (hall : ∀ op ∈ ops, ∀ q ∈ op.qubits, (dictLookup m q).isSome = true) :
    (applyOps logOn m ops a).2 = StratOutcome.success ∧
    ((applyOps logOn m ops a).1).extra =
      a.extra ++ ops.map (fun op =>
        (op, op.qubits.map (fun q => (dictLookup m q).getD 0))) := by
  induction ops generalizing a with
  | nil => simp [applyOps]
  | cons op rest ih =>
    have h1 := mapM_dictLookup_eq_map m op.qubits (hall op (by simp))
    have hrest : ∀ o ∈ rest, ∀ q ∈ o.qubits, (dictLookup m q).isSome = true :=
      fun o ho => hall o (by simp [ho])
    obtain ⟨hs, he⟩ := ih ⟨op.qubits.map (fun q => (dictLookup m q).getD 0),
      a.extra ++ [(op, op.qubits.map (fun q => (dictLookup m q).getD 0))]⟩ hrest
    simp only [applyOps, h1, logOn]
    refine ⟨hs, ?_⟩
    rw [he]
    simp

/-- Inserting a key not yet bound appends the binding. -/
theorem dictInsert_fresh {Q : Type} [DecidableEq Q] (m : List (Q × Nat))
    (k : Q) (v : Nat) (h : m.any (fun p => p.1 = k) = false) :
    dictInsert m k v = m ++ [(k, v)] := by
  simp [dictInsert, h]

/-- Folding the dict comprehension over pairwise-fresh keys appends all the
bindings in order. -/
theorem foldl_dictInsert_fresh {Q : Type} [DecidableEq Q] (l : List (Q × Nat)) :
    ∀ acc : List (Q × Nat), (∀ p ∈ l, ∀ r ∈ acc, r.1 ≠ p.1) →
    (l.map Prod.fst).Nodup →
    l.foldl (fun m p => dictInsert m p.1 p.2) acc = acc ++ l := by
  induction l with
  | nil => intro acc _ _; simp
  | cons p rest ih =>
    intro acc hfresh hnd
    rw [List.map_cons, List.nodup_cons] at hnd
    have hins : dictInsert acc p.1 p.2 = acc ++ [p] := by
      rw [dictInsert_fresh]
      simp only [List.any_eq_false, decide_eq_true_eq]
      intro r hr
      exact hfresh p (by simp) r hr
    rw [List.foldl_cons, hins, ih (acc ++ [p]) ?_ hnd.2]
    · simp
    · intro q hq r hr
      rcases List.mem_append.mp hr with h | h
      · exact hfresh q (by simp [hq]) r h
      · have hp : r = p := by simpa using h
        subst hp
        intro hEq
        exact hnd.1 (by rw [hEq]; exact List.mem_map_of_mem Prod.fst hq)

/-- With distinct qubits, the dict comprehension is exactly the
qubit-to-axis zip. -/
theorem buildQubitMap_eq_zip {Q : Type} [DecidableEq Q] (qubits : List Q)
    (axes : List Nat) (hnd : qubits.Nodup) (hlen : qubits.length = axes.length) :
    buildQubitMap qubits axes = qubits.zip axes := by
  unfold buildQubitMap
  rw [foldl_dictInsert_fresh (qubits.zip axes) [] (by simp) ?_]
  · simp
  · rw [List.map_fst_zip qubits axes (le_of_eq hlen)]
    exact hnd

/-- Looking up the `i`-th qubit in the zipped map returns the `i`-th axis. -/
theorem dictLookup_zip_get {Q : Type} [DecidableEq Q] (qubits : List Q)
    (axes : List Nat) (hnd : qubits.Nodup) (hlen : qubits.length = axes.length)
    (i : Nat) (h : i < qubits.length) :
    dictLookup (qubits.zip axes) (qubits.get ⟨i, h⟩) = some (axes.getD i 0) := by
  induction qubits generalizing axes i with
  | nil => simp at h
  | cons q qs ih =>
    rw [List.nodup_cons] at hnd
    cases axes with
    | nil => simp at hlen
    | cons ax axs =>
      cases i with
      | zero =>
        simp only [List.zip_cons_cons, List.get, dictLookup]
        rw [List.find?_cons_of_pos _ (by simp)]
        simp
      | succ n =>
        have hn : n < qs.length := by simpa using h
        have hne : ¬ q = qs.get ⟨n, hn⟩ := by
          intro hEq
          exact hnd.1 (hEq ▸ List.get_mem qs n hn)
        simp only [List.zip_cons_cons, List.get_cons_succ, dictLookup]
        rw [List.find?_cons_of_neg _ (by simpa using hne)]
        have := ih axs hnd.2 (by simpa using hlen) n hn
        simpa [dictLookup] using this

/-- For a qubit in the decomposition's qubit list, the dict built by the
strategy maps it to the axis at its index. -/
theorem dictLookup_buildQubitMap_mem {Q : Type} [DecidableEq Q]
    (qubits : List Q) (axes : List Nat) (hnd : qubits.Nodup)
    (hlen : qubits.length = axes.length) (q : Q) (hq : q ∈ qubits) :
    dictLookup (buildQubitMap qubits axes) q =
      some (axes.getD (qubits.indexOf q) 0) := by
  rw [buildQubitMap_eq_zip qubits axes hnd hlen]
  have hlt := List.indexOf_lt_length.mpr hq
  have h := dictLookup_zip_get qubits axes hnd hlen (qubits.indexOf q) hlt
  rwa [List.indexOf_get hlt] at h

/-- If the counting loop succeeds, the counter advanced once per operation:
every sub-operation was applied. -/
theorem applyOps_countLift_counts {Q σ E : Type} [DecidableEq Q]
    (actOn : Operation Q → Args σ → Args σ × Option E) (m : List (Q × Nat))
    (ops : List (Operation Q)) :
    ∀ a : Args (σ × Nat),
      (applyOps (countLift actOn) m ops a).2 = StratOutcome.success →
      ((applyOps (countLift actOn) m ops a).1).extra.2 =
        a.extra.2 + ops.length := by
  induction ops with
  | nil => intro a _; simp [applyOps]
  | cons op rest ih =>
    intro a hs
    revert hs
    simp only [applyOps, countLift]
    cases hm : op.qubits.mapM (dictLookup m) with
    | none => intro hs; exact StratOutcome.noConfusion hs
    | some newAxes =>
      dsimp only
      cases he : (actOn op { axes := newAxes, extra := a.extra.1 }).2 with
      | some e => intro hs; exact StratOutcome.noConfusion hs
      | none =>
        intro hs
        rw [ih _ hs]
        dsimp only
        simp only [List.length_cons]
        omega

/-- Claim C3: whatever the decomposition yields and however the loop ends —
sentinel, failed assertion, key error, an exception from a sub-operation,
or success — the strategy leaves the context's axes exactly as they were
before the call. -/
theorem strat_restores_axes {V Q σ E : Type} [DecidableEq Q]
    (decompose : V → Option (List (Operation Q) × List Q))
    (actOn : Operation Q → Args σ → Args σ × Option E)
    (val : V) (args : Args σ) :
    ((strat_act_on_from_apply_decompose decompose actOn val args).1).axes =
      args.axes := by
  unfold strat_act_on_from_apply_decompose
  cases decompose val with
  | none => rfl
  | some p =>
    obtain ⟨ops, qubits⟩ := p
    by_cases h : qubits.length = args.axes.length <;> simp [h]

/-- Claim C4: an unavailable decomposition produces the `NotImplemented`
sentinel with the context untouched, not an exception; the success flag
implies decomposition was available; and (counting invocations of the
abstract `act_on`) success implies every sub-operation of the
decomposition was applied. -/
theorem strat_not_implemented_sentinel {V Q σ E : Type} [DecidableEq Q]
    (decompose : V → Option (List (Operation Q) × List Q))
    (actOn : Operation Q → Args σ → Args σ × Option E)
    (val : V) (args : Args σ) :
    (decompose val = none →
      strat_act_on_from_apply_decompose decompose actOn val args =
        (args, StratOutcome.notImplemented)) ∧
    ((strat_act_on_from_apply_decompose decompose actOn val args).2 =
        StratOutcome.success → decompose val ≠ none) ∧
    (∀ (ops : List (Operation Q)) (qubits : List Q) (s0 : σ),
      decompose val = some (ops, qubits) →
      (strat_act_on_from_apply_decompose decompose (countLift actOn) val
        { axes := args.axes, extra := (s0, 0) }).2 = StratOutcome.success →
      ((strat_act_on_from_apply_decompose decompose (countLift actOn) val
        { axes := args.axes, extra := (s0, 0) }).1).extra.2 = ops.length) := by
  refine ⟨?_, ?_, ?_⟩
  · intro h
    simp [strat_act_on_from_apply_decompose, h]
  · intro hs h
    simp [strat_act_on_from_apply_decompose, h] at hs
  · intro ops qubits s0 hdec hs
    simp only [strat_act_on_from_apply_decompose, hdec] at hs ⊢
    by_cases hl : qubits.length = args.axes.length
    · simp only [hl, if_true, eq_self_iff_true] at hs ⊢
      have h := applyOps_countLift_counts actOn
        (buildQubitMap qubits args.axes) ops
        { axes := args.axes, extra := (s0, 0) } (by simpa using hs)
      simpa using h
    · simp [hl] at hs

/-- Witness for C4 at concrete inputs: an undecomposable value yields the
sentinel; a two-operation decomposition applied with the counting
instrumentation invokes `act_on` exactly twice. -/
theorem strat_not_implemented_sentinel_witness :
    ((fun _ : Unit => (none : Option (List (Operation Nat) × List Nat))) ()
      = none) ∧
    strat_act_on_from_apply_decompose
        (fun _ : Unit => (none : Option (List (Operation Nat) × List Nat)))
        (fun _ (a : Args Unit) => (a, (none : Option Unit))) () ⟨[], ()⟩ =
      (⟨[], ()⟩, StratOutcome.notImplemented) ∧
    ((strat_act_on_from_apply_decompose
        (fun _ : Unit =>
          some ([(⟨[0]⟩ : Operation Nat), ⟨[1]⟩], [(0 : Nat), 1]))
        (countLift (fun _ (a : Args Unit) => (a, (none : Option Unit)))) ()
        { axes := [3, 4], extra := ((), 0) }).1).extra.2 = 2 :=
  ⟨rfl,
    (strat_not_implemented_sentinel
      (fun _ : Unit => (none : Option (List (Operation Nat) × List Nat)))
      (fun _ (a : Args Unit) => (a, (none : Option Unit))) ()
      ({ axes := [], extra := () } : Args Unit)).1 rfl,
    (strat_not_implemented_sentinel
      (fun _ : Unit => some ([(⟨[0]⟩ : Operation Nat), ⟨[1]⟩], [(0 : Nat), 1]))
      (fun _ (a : Args Unit) => (a, (none : Option Unit))) ()
      ({ axes := [3, 4], extra := () } : Args Unit)).2.2
      [⟨[0]⟩, ⟨[1]⟩] [0, 1] () rfl (by decide)⟩

/-- Claim C5: on a decomposable value whose decomposition lists distinct
qubits covering the sub-operations, the qubit map sends the `i`-th
decomposed qubit to the `i`-th context axis, and the loop applies the
sub-operations exactly in decomposition order, each applied with the
context's axes set to its qubits remapped through that map (observed with
the logging `act_on`). -/
theorem strat_remaps_and_applies_in_order {V Q : Type} [DecidableEq Q]
    (decompose : V → Option (List (Operation Q) × List Q)) (val : V)
    (ops : List (Operation Q)) (qubits : List Q) (axes : List Nat)
    (trace0 : List (Operation Q × List Nat))
    (hdec : decompose val = some (ops, qubits))
    (hnd : qubits.Nodup)
    (hlen : qubits.length = axes.length)
    (hcover : ∀ op ∈ ops, ∀ q ∈ op.qubits, q ∈ qubits) :
    ((strat_act_on_from_apply_decompose decompose logOn val
        ⟨axes, trace0⟩).1).extra =
      trace0 ++ ops.map (fun op =>
        (op, op.qubits.map (fun q => axes.getD (qubits.indexOf q) 0))) ∧
    (strat_act_on_from_apply_decompose decompose logOn val
        ⟨axes, trace0⟩).2 = StratOutcome.success ∧
    (∀ i (h : i < qubits.length),
      dictLookup (buildQubitMap qubits axes) (qubits.get ⟨i, h⟩) =
        some (axes.getD i 0)) := by
  have hmap : ∀ q ∈ qubits, dictLookup (buildQubitMap qubits axes) q =
      some (axes.getD (qubits.indexOf q) 0) :=
    fun q hq => dictLookup_buildQubitMap_mem qubits axes hnd hlen q hq
  have hall : ∀ op ∈ ops, ∀ q ∈ op.qubits,
      (dictLookup (buildQubitMap qubits axes) q).isSome = true := by
    intro op hop q hq
    rw [hmap q (hcover op hop q hq)]
    rfl
  obtain ⟨hs, he⟩ := applyOps_logOn (buildQubitMap qubits axes) ops
    ⟨axes, trace0⟩ hall
  refine ⟨?_, ?_, ?_⟩
  · simp only [strat_act_on_from_apply_decompose, hdec, hlen, if_true,
      eq_self_iff_true]
    rw [he]
    congr 1
    apply List.map_congr_left
    intro op hop
    congr 1
    apply List.map_congr_left
    intro q hq
    rw [hmap q (hcover op hop q hq)]
    rfl
  · simp only [strat_act_on_from_apply_decompose, hdec, hlen, if_true,
      eq_self_iff_true]
    exact hs
  · intro i h
    rw [buildQubitMap_eq_zip qubits axes hnd hlen]
    exact dictLookup_zip_get qubits axes hnd hlen i h

/-- Witness for C5 at a concrete input: qubits `[10, 20]` over axes
`[3, 4]`; the two sub-operations are logged in order with remapped axes
`[4]` and `[3, 4]`. -/
theorem strat_remaps_and_applies_in_order_witness :
    ((fun _ : Unit =>
        some ([(⟨[20]⟩ : Operation Nat), ⟨[10, 20]⟩], [(10 : Nat), 20])) ()
      = some ([⟨[20]⟩, ⟨[10, 20]⟩], [10, 20])) ∧
    ([(10 : Nat), 20] : List Nat).Nodup ∧
    ([(10 : Nat), 20] : List Nat).length = ([3, 4] : List Nat).length ∧
    (∀ op ∈ [(⟨[20]⟩ : Operation Nat), ⟨[10, 20]⟩], ∀ q ∈ op.qubits,
      q ∈ ([10, 20] : List Nat)) ∧
    (((strat_act_on_from_apply_decompose
        (fun _ : Unit =>
          some ([(⟨[20]⟩ : Operation Nat), ⟨[10, 20]⟩], [(10 : Nat), 20]))
        logOn () ⟨[3, 4], []⟩).1).extra =
      [] ++ [(⟨[20]⟩ : Operation Nat), ⟨[10, 20]⟩].map (fun op =>
        (op, op.qubits.map (fun q =>
          ([3, 4] : List Nat).getD (List.indexOf q [10, 20]) 0))) ∧
    (strat_act_on_from_apply_decompose
        (fun _ : Unit =>
          some ([(⟨[20]⟩ : Operation Nat), ⟨[10, 20]⟩], [(10 : Nat), 20]))
        logOn () ⟨[3, 4], []⟩).2 = StratOutcome.success ∧
    (∀ i (h : i < ([(10 : Nat), 20] : List Nat).length),
      dictLookup (buildQubitMap [(10 : Nat), 20] [3, 4])
          (([(10 : Nat), 20] : List Nat).get ⟨i, h⟩) =
        some (([3, 4] : List Nat).getD i 0))) :=
  ⟨rfl, by decide, rfl, by decide,
    strat_remaps_and_applies_in_order
      (fun _ : Unit =>
        some ([(⟨[20]⟩ : Operation Nat), ⟨[10, 20]⟩], [(10 : Nat), 20])) ()
      [⟨[20]⟩, ⟨[10, 20]⟩] [10, 20] [3, 4] [] rfl (by decide) rfl (by decide)⟩

end ActOnArgsModel

namespace CompatModel

/-! ### Properties of the deprecation utilities (modelled from the spec) -/

/-- A list is a prefix of itself followed by anything. -/
theorem isPrefixOf_append_self (n r : List Char) :
    n.isPrefixOf (n ++ r) = true := by
  induction n with
  | nil => simp [List.isPrefixOf]
  | cons c cs ih => simp [List.isPrefixOf, ih]

/-- The empty needle occurs in every haystack. -/
theorem hasSublist_nil (l : List Char) : hasSublist l [] = true := by
  cases l <;> simp [hasSublist, List.isPrefixOf]

/-- A needle occurs in itself. -/
theorem hasSublist_self (n : List Char) : hasSublist n n = true := by
  cases n with
  | nil => rfl
  | cons c cs =>
    simp only [hasSublist, Bool.or_eq_true]
    have h := isPrefixOf_append_self (c :: cs) []
    rw [List.append_nil] at h
    exact Or.inl h

/-- A needle occurs at the front of itself followed by anything. -/
theorem hasSublist_append_left (n r : List Char) :
    hasSublist (n ++ r) n = true := by
  cases n with
  | nil => simpa using hasSublist_nil r
  | cons c cs =>
    simp only [List.cons_append, hasSublist, Bool.or_eq_true]
    exact Or.inl (isPrefixOf_append_self (c :: cs) r)

/-- Occurrence is preserved by prepending. -/
theorem hasSublist_append_right (a b n : List Char)
    (h : hasSublist b n = true) : hasSublist (a ++ b) n = true := by
  induction a with
  | nil => simpa
  | cons c cs ih =>
    simp only [List.cons_append, hasSublist, Bool.or_eq_true]
    exact Or.inr ih

/-- Claim C6: every one of the four deprecation decorators succeeds on a
milestone matching the `vMAJOR.MINOR` pattern and fails — at decoration
time, yielding no wrapped object at all that could later be called — on
every other milestone string. -/
theorem deprecation_decorators_validate_deadline {α β : Type}
    (deadline fix name : String) (fn : α → β) :
    (validDeadline deadline = true →
      deprecated deadline fix name fn =
        Except.ok { name := name, deadline := deadline, fix := fix, fn := fn } ∧
      deprecated_parameter deadline fix name fn =
        Except.ok { name := name, deadline := deadline, fix := fix, fn := fn } ∧
      deprecated_class deadline fix name fn =
        Except.ok { name := name, deadline := deadline, fix := fix, fn := fn } ∧
      deprecate_attributes deadline fix name fn =
        Except.ok { name := name, deadline := deadline, fix := fix, fn := fn }) ∧
    (validDeadline deadline = false →
      deprecated deadline fix name fn =
        Except.error (DecorationError.badDeadline deadline) ∧
      deprecated_parameter deadline fix name fn =
        Except.error (DecorationError.badDeadline deadline) ∧
      deprecated_class deadline fix name fn =
        Except.error (DecorationError.badDeadline deadline) ∧
      deprecate_attributes deadline fix name fn =
        Except.error (DecorationError.badDeadline deadline)) := by
  constructor <;> intro h <;>
    simp [deprecated, deprecated_parameter, deprecated_class,
      deprecate_attributes, h]

/-- Witness for C6 at concrete milestones: the test suite's valid `"v1.2"`
decorates, and its malformed `"invalid"` is rejected at decoration time. -/
theorem deprecation_decorators_validate_deadline_witness :
    validDeadline "v1.2" = true ∧
    (deprecated "v1.2" "Roll some dice." "old_func" (fun n : Nat => n) =
        Except.ok ⟨"old_func", "v1.2", "Roll some dice.", fun n : Nat => n⟩ ∧
      deprecated_parameter "v1.2" "Roll some dice." "old_func"
          (fun n : Nat => n) =
        Except.ok ⟨"old_func", "v1.2", "Roll some dice.", fun n : Nat => n⟩ ∧
      deprecated_class "v1.2" "Roll some dice." "old_func"
          (fun n : Nat => n) =
        Except.ok ⟨"old_func", "v1.2", "Roll some dice.", fun n : Nat => n⟩ ∧
      deprecate_attributes "v1.2" "Roll some dice." "old_func"
          (fun n : Nat => n) =
        Except.ok ⟨"old_func", "v1.2", "Roll some dice.", fun n : Nat => n⟩) ∧
    validDeadline "invalid" = false ∧
    (deprecated "invalid" "Roll some dice." "old_func" (fun n : Nat => n) =
        Except.error (DecorationError.badDeadline "invalid") ∧
      deprecated_parameter "invalid" "Roll some dice." "old_func"
          (fun n : Nat => n) =
        Except.error (DecorationError.badDeadline "invalid") ∧
      deprecated_class "invalid" "Roll some dice." "old_func"
          (fun n : Nat => n) =
        Except.error (DecorationError.badDeadline "invalid") ∧
      deprecate_attributes "invalid" "Roll some dice." "old_func"
          (fun n : Nat => n) =
        Except.error (DecorationError.badDeadline "invalid")) :=
  ⟨rfl,
    (deprecation_decorators_validate_deadline "v1.2" "Roll some dice."
      "old_func" (fun n : Nat => n)).1 rfl,
    rfl,
    (deprecation_decorators_validate_deadline "invalid" "Roll some dice."
      "old_func" (fun n : Nat => n)).2 rfl⟩

/-- Claim C7: each call through a deprecation wrapper emits exactly one
diagnostic, whose text contains the deprecated name, the removal milestone
and the remediation text, and the call still returns the underlying
function's result. -/
theorem callDeprecated_emits_one_diagnostic {α β : Type}
    (f : DeprecatedFn α β) (x : α) :
    (callDeprecated f x).value = f.fn x ∧
    (callDeprecated f x).diagnostics.length = 1 ∧
    hasSublist ((callDeprecated f x).diagnostics.headD "").data
      f.name.data = true ∧
    hasSublist ((callDeprecated f x).diagnostics.headD "").data
      f.deadline.data = true ∧
    hasSublist ((callDeprecated f x).diagnostics.headD "").data
      f.fix.data = true := by
  have hdata : ((callDeprecated f x).diagnostics.headD "").data =
      f.name.data ++ (" was used but is deprecated.\nIt will be removed in cirq ".data ++
        (f.deadline.data ++ (".\n".data ++ f.fix.data))) := by
    simp [callDeprecated, deprecationMessage, String.data_append,
      List.append_assoc]
  refine ⟨rfl, rfl, ?_, ?_, ?_⟩ <;> rw [hdata]
  · exact hasSublist_append_left _ _
  · apply hasSublist_append_right
    apply hasSublist_append_right
    exact hasSublist_append_left _ _
  · apply hasSublist_append_right
    apply hasSublist_append_right
    apply hasSublist_append_right
    apply hasSublist_append_right
    exact hasSublist_self _

/-- Claim C8: with the internal self-use policy on, every kind of
deprecated use — calling a deprecated function, passing a deprecated
parameter, accessing a deprecated attribute, instantiating a deprecated
class — is a hard failure rather than a warning. -/
theorem selfUse_policy_hard_failure {α β : Type} (u : DeprecationUse)
    (f : DeprecatedFn α β) (x : α) :
    callDeprecatedWithPolicy true u f x =
      Except.error "Cirq should not use deprecated functionality" := rfl

end CompatModel
